import Mathlib

/-!
Shallow embedding of the mandoc.db decoder (Rust sources: src/main.rs,
src/utils.rs, src/pages.rs, src/macros.rs) and proofs about it.

Buffers are modelled as `List Nat` (one entry per byte, values < 256 in all
concrete inputs).  Rust `Result<_, Box<dyn Error>>` values are modelled by
`PResult`: `.ok`, `.error` (a typed/string error returned via `?` or `Err`)
and `.panic` (an `assert!`, `unreachable!` or slicing/indexing panic, which
unwinds instead of returning a value).  Rust iterators are modelled by the
lists they yield: `split_inclusive(|b| *b == 0)` becomes the fragment list
`splitInclusiveNul`, and `for i in 0..n` / `for p in 0..=20` loops recurse
over `List.range n` / `List.range 21`.
-/

/-- Error payloads: string messages created by the Rust sources, plus the
`str::from_utf8` error propagated with `?` in main.rs and pages.rs. -/
inductive PErr where
  | msg (s : String)
  | utf8Error
deriving DecidableEq

/-- Outcome of a fallible Rust computation: success, returned error, or panic. -/
inductive PResult (α : Type) where
  | ok (a : α)
  | error (e : PErr)
  | panic
deriving DecidableEq

namespace PResult

def bind {α β : Type} : PResult α → (α → PResult β) → PResult β
  | .ok a, f => f a
  | .error e, _ => .error e
  | .panic, _ => .panic

def map {α β : Type} (f : α → β) : PResult α → PResult β
  | .ok a => .ok (f a)
  | .error e => .error e
  | .panic => .panic

def isOk {α : Type} : PResult α → Bool
  | .ok _ => true
  | _ => false

end PResult

/-- Continuation byte of a UTF-8 sequence (0x80..=0xBF). -/
def isCont (b : Nat) : Bool := decide (128 ≤ b ∧ b ≤ 191)

/-- UTF-8 validity of a byte sequence, as checked by Rust `str::from_utf8`. -/
def isValidUtf8 : List Nat → Bool
  | [] => true
  | b :: rest =>
    if b ≤ 127 then isValidUtf8 rest
    else if 194 ≤ b ∧ b ≤ 223 then
      match rest with
      | c1 :: r => isCont c1 && isValidUtf8 r
      | [] => false
    else if b = 224 then
      match rest with
      | c1 :: c2 :: r => decide (160 ≤ c1 ∧ c1 ≤ 191) && isCont c2 && isValidUtf8 r
      | _ => false
    else if 225 ≤ b ∧ b ≤ 236 then
      match rest with
      | c1 :: c2 :: r => isCont c1 && isCont c2 && isValidUtf8 r
      | _ => false
    else if b = 237 then
      match rest with
      | c1 :: c2 :: r => decide (128 ≤ c1 ∧ c1 ≤ 159) && isCont c2 && isValidUtf8 r
      | _ => false
    else if 238 ≤ b ∧ b ≤ 239 then
      match rest with
      | c1 :: c2 :: r => isCont c1 && isCont c2 && isValidUtf8 r
      | _ => false
    else if b = 240 then
      match rest with
      | c1 :: c2 :: c3 :: r =>
        decide (144 ≤ c1 ∧ c1 ≤ 191) && isCont c2 && isCont c3 && isValidUtf8 r
      | _ => false
    else if 241 ≤ b ∧ b ≤ 243 then
      match rest with
      | c1 :: c2 :: c3 :: r => isCont c1 && isCont c2 && isCont c3 && isValidUtf8 r
      | _ => false
    else if b = 244 then
      match rest with
      | c1 :: c2 :: c3 :: r =>
        decide (128 ≤ c1 ∧ c1 ≤ 143) && isCont c2 && isCont c3 && isValidUtf8 r
      | _ => false
    else false

/-- main.rs `DB_MAGIC_NUMBER`. -/
def DB_MAGIC_NUMBER : Nat := 0x3a7d0cdb

/-- main.rs `DB_VERSION_NUMBER`. -/
def DB_VERSION_NUMBER : Nat := 0x1

/-- main.rs lines 104-110 and utils.rs lines 30-35 (`parse_num`, identical in
both files): `assert!(start + 3 < bytes.len())` then a 4-byte big-endian read.
The assert is a panic, not a returned error; `usize::try_from(u32)` cannot
fail on a 64-bit target, so the in-bounds case is always `.ok`. -/
def parse_num (bytes : List Nat) (start : Nat) : PResult Nat :=
  if start + 3 < bytes.length then
    .ok (bytes.getD start 0 * 16777216 + bytes.getD (start + 1) 0 * 65536 +
         bytes.getD (start + 2) 0 * 256 + bytes.getD (start + 3) 0)
  else
    .panic

/-- Rust slice `split_inclusive(|b| *b == 0)`: the list of fragments, each
running up to and including a NUL, the final fragment possibly without one.
An empty input yields no fragments and no fragment is ever empty. -/
def splitInclusiveNul : List Nat → List (List Nat)
  | [] => []
  | b :: t =>
    if b = 0 then [b] :: splitInclusiveNul t
    else
      match splitInclusiveNul t with
      | [] => [[b]]
      | f :: fs => (b :: f) :: fs

/-- The fragment loop of main.rs lines 119-129 (`parse_strings_list`):
an empty fragment is an error (unreachable for `split_inclusive` output),
a lone-NUL fragment breaks out of the loop, and otherwise the fragment minus
its last byte is UTF-8-checked (`?` propagates the `Utf8Error`) and pushed. -/
def parse_strings_list_loop : List (List Nat) → PResult (List (List Nat))
  | [] => .ok []
  | f :: fs =>
    match f with
    | [] => .error (.msg "Parsed an unexpected empty string.")
    | [0] => .ok []
    | _ =>
      if isValidUtf8 f.dropLast then
        (parse_strings_list_loop fs).map (fun rest => f.dropLast :: rest)
      else .error .utf8Error

/-- main.rs lines 112-132 (`parse_strings_list`): `bytes[start..]` panics when
`start > bytes.len()`; otherwise iterate over the NUL-inclusive fragments of
the suffix. -/
def parse_strings_list (bytes : List Nat) (start : Nat) :
    PResult (List (List Nat)) :=
  if start ≤ bytes.length then
    parse_strings_list_loop (splitInclusiveNul (bytes.drop start))
  else .panic

/-- The fragment loop of utils.rs lines 44-55 (`parse_list`): identical
control flow to `parse_strings_list_loop`, with utils.rs's error strings (the
UTF-8 failure is mapped to a message instead of propagating the error). -/
def parse_list_loop : List (List Nat) → PResult (List (List Nat))
  | [] => .ok []
  | f :: fs =>
    match f with
    | [] => .error (.msg "Encountered an unexpected NUL byte.")
    | [0] => .ok []
    | _ =>
      if isValidUtf8 f.dropLast then
        (parse_list_loop fs).map (fun rest => f.dropLast :: rest)
      else .error (.msg "str::from_utf8 failed while parsing a list.")

/-- utils.rs lines 37-58 (`parse_list`). -/
def parse_list (bytes : List Nat) (idx : Nat) : PResult (List (List Nat)) :=
  if idx ≤ bytes.length then
    parse_list_loop (splitInclusiveNul (bytes.drop idx))
  else .panic

/-- main.rs lines 230-234 (`struct Name`): a decoded name, text plus the
source bitmask byte. -/
structure Name where
  str : List Nat
  source : Nat
deriving DecidableEq

/-- The fragment loop of main.rs lines 256-274 (`Name::parse_names_list`).
Arm order follows the Rust match: unreachable empty-fragment arm, `[0]`
terminator, the source-byte range guard, then the catch-all that drops the
fragment's last byte and splits off the leading source byte (`split_first` on
a now-empty fragment fails with the `ok_or` message). -/
def parse_names_list_loop : List (List Nat) → PResult (List Name)
  | [] => .ok []
  | f :: fs =>
    match f with
    | [] => .error (.msg "Parsed an unexpected empty string.")
    | [0] => .ok []
    | b :: _ =>
      if ¬(1 ≤ b ∧ b ≤ 31) then .error (.msg "Name source parsing failed.")
      else
        match f.dropLast with
        | [] => .error (.msg "Names list parsing failed.")
        | _ :: name_bytes =>
          if isValidUtf8 name_bytes then
            (parse_names_list_loop fs).map
              (fun rest => ⟨name_bytes, b⟩ :: rest)
          else .error .utf8Error

/-- main.rs lines 249-277 (`Name::parse_names_list`): `bytes[start..]` panics
when `start > bytes.len()`; otherwise iterate over the fragments. -/
def Name.parse_names_list (bytes : List Nat) (start : Nat) :
    PResult (List Name) :=
  if start ≤ bytes.length then
    parse_names_list_loop (splitInclusiveNul (bytes.drop start))
  else .panic

namespace pages

/-- pages.rs lines 43-47 (`struct Name`): same data as main.rs `Name` with
the text field called `value`. -/
structure Name where
  value : List Nat
  source : Nat
deriving DecidableEq

/-- The fragment loop of pages.rs lines 69-87 (`Name::parse_names`):
byte-for-byte the same control flow as main.rs `Name::parse_names_list`. -/
def parse_names_loop : List (List Nat) → PResult (List Name)
  | [] => .ok []
  | f :: fs =>
    match f with
    | [] => .error (.msg "Parsed an unexpected empty string.")
    | [0] => .ok []
    | b :: _ =>
      if ¬(1 ≤ b ∧ b ≤ 31) then .error (.msg "Name source parsing failed.")
      else
        match f.dropLast with
        | [] => .error (.msg "Names list parsing failed.")
        | _ :: name_bytes =>
          if isValidUtf8 name_bytes then
            (parse_names_loop fs).map (fun rest => ⟨name_bytes, b⟩ :: rest)
          else .error .utf8Error

/-- pages.rs lines 62-90 (`Name::parse_names`). -/
def Name.parse_names (bytes : List Nat) (start : Nat) : PResult (List Name) :=
  if start ≤ bytes.length then
    parse_names_loop (splitInclusiveNul (bytes.drop start))
  else .panic

end pages

/-- main.rs lines 288-294 (`enum PageFormat`). -/
inductive PageFormat where
  | MdocMan
  | Preformatted
deriving DecidableEq

/-- main.rs lines 305-313 (`impl From<u8> for PageFormat`): tag 1 and 2 map
to the two variants; every other byte hits `unreachable!()`, a panic. -/
def PageFormat.fromByte (byte : Nat) : PResult PageFormat :=
  match byte with
  | 1 => .ok .MdocMan
  | 2 => .ok .Preformatted
  | _ => .panic

/-- Shared shape of main.rs lines 371-375 (the `desc` field read in
`Page::parse`) and macros.rs lines 97-101 (the `str` field read in
`Value::parse`): `bytes[idx..]` (panics when `idx > bytes.len()`), first
NUL-free prefix via `split(..).next()` (always `Some`), UTF-8 check whose
failure is converted by `ok_or` into the given message. -/
def read_prefix_string (bytes : List Nat) (idx : Nat) (emsg : String) :
    PResult (List Nat) :=
  if idx ≤ bytes.length then
    let s := (bytes.drop idx).takeWhile (fun b => b ≠ 0)
    if isValidUtf8 s then .ok s else .error (.msg emsg)
  else .panic

/-- main.rs lines 315-323 (`struct Page`). -/
structure Page where
  names : List Name
  sects : List (List Nat)
  archs : Option (List (List Nat))
  desc : List Nat
  files : List (List Nat)
  format : PageFormat
deriving DecidableEq

/-- main.rs lines 354-388 (`Page::parse`): `assert!(start + 19 < bytes.len())`
then five big-endian offset reads, then names, sections, optional
architectures (absent iff the offset is 0), description, files at
`files_start + 1`, and last the format tag byte `bytes[files_start]`
(an index panic when out of range, `unreachable!` when not 1 or 2). -/
def Page.parse (bytes : List Nat) (start : Nat) : PResult Page :=
  if start + 19 < bytes.length then
    (parse_num bytes start).bind fun names_start =>
    (parse_num bytes (start + 4)).bind fun sects_start =>
    (parse_num bytes (start + 8)).bind fun archs_start =>
    (parse_num bytes (start + 12)).bind fun desc_start =>
    (parse_num bytes (start + 16)).bind fun files_start =>
    (Name.parse_names_list bytes names_start).bind fun names =>
    (parse_strings_list bytes sects_start).bind fun sects =>
    (if archs_start ≠ 0 then
        (parse_strings_list bytes archs_start).map Option.some
      else .ok Option.none).bind fun archs =>
    (read_prefix_string bytes desc_start "Description string parsing failed.").bind
      fun desc =>
    (parse_strings_list bytes (files_start + 1)).bind fun files =>
    (if files_start < bytes.length then
        PageFormat.fromByte (bytes.getD files_start 0)
      else .panic).map fun format =>
    { names := names, sects := sects, archs := archs, desc := desc,
      files := files, format := format }
  else .panic

/-- main.rs lines 134-138 (`struct Database`): only the declared page count
and the pages — the parsed database holds no Macros component. -/
structure Database where
  total_pages : Nat
  pages : List Page
deriving DecidableEq

/-- The `for page_idx in 0..total_pages` loop of main.rs lines 161-165 over
the remaining indices, pushing `Page::parse(bytes, 20 + 20 * page_idx)`
results in order. -/
def pagesLoop (bytes : List Nat) : List Nat → PResult (List Page)
  | [] => .ok []
  | page_idx :: rest =>
    (Page.parse bytes (20 + 20 * page_idx)).bind fun p =>
    (pagesLoop bytes rest).map (fun ps => p :: ps)

/-- main.rs lines 141-173 (`Database::parse`): magic at 0, trailer pointer at
12 and the magic it points to, version at 4, page count at 16, the pages
loop, and the final length check.  The Macros pointer at offset 8 is never
read and no Macros collection is decoded. -/
def Database.parse (bytes : List Nat) : PResult Database :=
  (parse_num bytes 0).bind fun first_four =>
  (parse_num bytes 12).bind fun final_four_idx =>
  (parse_num bytes final_four_idx).bind fun final_four =>
  if first_four ≠ DB_MAGIC_NUMBER ∨ final_four ≠ DB_MAGIC_NUMBER then
    .error (.msg "Invalid file format.")
  else
    (parse_num bytes 4).bind fun second_four =>
    if second_four ≠ DB_VERSION_NUMBER then
      .error (.msg "Invalid version number.")
    else
      (parse_num bytes 16).bind fun total_pages =>
      (pagesLoop bytes (List.range total_pages)).bind fun pages =>
      if pages.length ≠ total_pages then
        .error (.msg "Page entry parsing failed.")
      else
        .ok { total_pages := total_pages, pages := pages }

/-- Rust `u8::to_ascii_lowercase`. -/
def to_ascii_lowercase (b : Nat) : Nat :=
  if 65 ≤ b ∧ b ≤ 90 then b + 32 else b

/-- Rust `str::eq_ignore_ascii_case`: equal lengths and bytewise equality
after ASCII lowercasing (mapping both lists preserves length). -/
def eq_ignore_ascii_case (a b : List Nat) : Bool :=
  a.map to_ascii_lowercase == b.map to_ascii_lowercase

/-- Inner loop of main.rs lines 177-182 (`Database::search`): scan one page's
names in order, reporting whether one matches the query case-insensitively. -/
def searchNames (names : List Name) (query : List Nat) : Bool :=
  match names with
  | [] => false
  | n :: rest =>
    if eq_ignore_ascii_case n.str query then true else searchNames rest query

/-- Outer loop of main.rs lines 176-183: the first page (in table order) one
of whose names matches is printed and returned; falling off the loop prints
the no-result message, modelled as `none`. -/
def searchPages (ps : List Page) (query : List Nat) : Option Page :=
  match ps with
  | [] => none
  | p :: rest =>
    if searchNames p.names query then some p else searchPages rest query

/-- main.rs lines 175-186 (`Database::search`), with the reported outcome
(the printed page, or the explicit no-result message) as the value. -/
def Database.search (db : Database) (query : List Nat) : Option Page :=
  searchPages db.pages query

namespace macros

/-- macros.rs lines 84-88 (`struct Value`): the macro string and one group of
names per referenced page. -/
structure Value where
  str : List Nat
  page_names : List (List pages.Name)
deriving DecidableEq

/-- The `for p in 0..=20` walk of macros.rs lines 107-118 over the remaining
entry indices: read the u32 entry at `pages_list + p * 4`; 0 breaks out of
the loop; otherwise the entry is a Page record start whose first u32 (its
names offset) is read and resolved with `Name::parse_names`, and the group
is pushed.  After entry 20 the index list is exhausted and the loop ends. -/
def pagesWalk (bytes : List Nat) (pages_list : Nat) :
    List Nat → PResult (List (List pages.Name))
  | [] => .ok []
  | p :: ps =>
    (parse_num bytes (pages_list + p * 4)).bind fun page_idx =>
    if page_idx = 0 then .ok []
    else
      (parse_num bytes page_idx).bind fun names_list =>
      (pages.Name.parse_names bytes names_list).bind fun names_vec =>
      (pagesWalk bytes pages_list ps).map (fun rest => names_vec :: rest)

/-- macros.rs lines 90-121 (`Value::parse`): macro string offset at
`value_idx`, the string itself (first NUL-free prefix, UTF-8-checked with
`ok_or`), then the pages-list offset at `pages_list_idx` and the walk over
entries 0 to 20. -/
def Value.parse (bytes : List Nat) (value_idx pages_list_idx : Nat) :
    PResult Value :=
  (parse_num bytes value_idx).bind fun str_idx =>
  (read_prefix_string bytes str_idx "Macro value parsing failed.").bind fun s =>
  (parse_num bytes pages_list_idx).bind fun pages_list =>
  (pagesWalk bytes pages_list (List.range 21)).map fun page_names =>
  { str := s, page_names := page_names }

/-- macros.rs lines 43-47 (`struct Table`). -/
structure Table where
  count : Nat
  values : List Value
deriving DecidableEq

/-- The `for i in 0..count` loop of macros.rs lines 61-66 over the remaining
indices: each value header is 8 bytes at `values_start + i * 8`, with the
pages-list offset 4 bytes further in. -/
def valuesLoop (bytes : List Nat) (values_start : Nat) :
    List Nat → PResult (List Value)
  | [] => .ok []
  | i :: rest =>
    (Value.parse bytes (values_start + i * 8) (values_start + i * 8 + 4)).bind
      fun v =>
    (valuesLoop bytes values_start rest).map (fun vs => v :: vs)

/-- macros.rs lines 49-75 (`Table::parse`): count at `start`; count 0 returns
the empty table at once; otherwise decode `count` values starting at
`start + 4` and re-check the length. -/
def Table.parse (bytes : List Nat) (start : Nat) : PResult Table :=
  (parse_num bytes start).bind fun count =>
  if count = 0 then .ok { count := count, values := [] }
  else
    (valuesLoop bytes (start + 4) (List.range count)).bind fun values =>
    if values.length ≠ count then .error (.msg "Macro values parsing failed.")
    else .ok { count := count, values := values }

/-- macros.rs lines 10-14 (`struct Macros`). -/
structure Macros where
  count : Nat
  tables : List Table
deriving DecidableEq

/-- The `for i in 0..count` loop of macros.rs lines 25-29 over the remaining
indices: read each table offset at `macro_keys_start + i * 4` and decode the
table there. -/
def tablesLoop (bytes : List Nat) (macro_keys_start : Nat) :
    List Nat → PResult (List Table)
  | [] => .ok []
  | i :: rest =>
    (parse_num bytes (macro_keys_start + i * 4)).bind fun macro_table_idx =>
    (Table.parse bytes macro_table_idx).bind fun macro_table =>
    (tablesLoop bytes macro_keys_start rest).map (fun ts => macro_table :: ts)

/-- macros.rs lines 16-38 (`Macros::parse`): count at `start`, the tables
loop over offsets starting at `start + 4`, then the
`count != 36 || tables.len() != 36` check. -/
def Macros.parse (bytes : List Nat) (start : Nat) : PResult Macros :=
  (parse_num bytes start).bind fun count =>
  (tablesLoop bytes (start + 4) (List.range count)).bind fun tables =>
  if count ≠ 36 ∨ tables.length ≠ 36 then .error (.msg "Macros parsing failed.")
  else .ok { count := count, tables := tables }

end macros

/-! ### Helper lemmas -/

theorem PResult.bind_eq_ok {α β : Type} {x : PResult α} {f : α → PResult β}
    {v : β} : x.bind f = .ok v ↔ ∃ a, x = .ok a ∧ f a = .ok v := by
  cases x <;> simp [PResult.bind]

theorem PResult.map_eq_ok {α β : Type} {x : PResult α} {f : α → β} {v : β} :
    x.map f = .ok v ↔ ∃ a, x = .ok a ∧ f a = v := by
  cases x <;> simp [PResult.map]

theorem List.drop_getD_cons {l : List Nat} {n : Nat} (h : n < l.length) :
    l.drop n = l.getD n 0 :: l.drop (n + 1) := by
  rw [List.getD_eq_getElem l 0 h]
  exact List.drop_eq_getElem_cons h

/-- The first fragment of a nonempty input starts with the input's first
byte. -/
theorem splitInclusiveNul_cons (b : Nat) (t : List Nat) :
    ∃ f fs, splitInclusiveNul (b :: t) = (b :: f) :: fs := by
  by_cases hb : b = 0
  · subst hb
    exact ⟨[], splitInclusiveNul t, by simp [splitInclusiveNul]⟩
  · rcases hs : splitInclusiveNul t with _ | ⟨f, fs⟩
    · exact ⟨[], [], by simp [splitInclusiveNul, hb, hs]⟩
    · exact ⟨f, fs, by simp [splitInclusiveNul, hb, hs]⟩

/-- One-step unfolding of `splitInclusiveNul` at a non-NUL head byte. -/
theorem splitInclusiveNul_cons_ne {b : Nat} (t : List Nat) (hb : b ≠ 0) :
    splitInclusiveNul (b :: t) =
      match splitInclusiveNul t with
      | [] => [[b]]
      | f :: fs => (b :: f) :: fs := by
  unfold splitInclusiveNul
  simp only [if_neg hb]
  cases t <;> rfl

/-- A nonempty input with no NUL anywhere is one single fragment. -/
theorem splitInclusiveNul_no_zero {l : List Nat} (hne : l ≠ [])
    (hz : ∀ b ∈ l, b ≠ 0) : splitInclusiveNul l = [l] := by
  induction l with
  | nil => exact absurd rfl hne
  | cons b t ih =>
    have hb : b ≠ 0 := hz b (by simp)
    cases t with
    | nil => simp [splitInclusiveNul, hb]
    | cons c t2 =>
      have ihe : splitInclusiveNul (c :: t2) = [c :: t2] :=
        ih (by simp) (fun x hx => hz x (List.mem_cons_of_mem b hx))
      rw [splitInclusiveNul_cons_ne _ hb, ihe]

/-- One-step unfolding of the utils.rs list loop at a fragment whose head
byte is non-NUL: the terminator arm cannot fire, so the catch-all runs. -/
theorem parse_list_loop_cons_ne {b : Nat} (t : List Nat)
    (fs : List (List Nat)) (hb : b ≠ 0) :
    parse_list_loop ((b :: t) :: fs) =
      if isValidUtf8 (b :: t).dropLast then
        (parse_list_loop fs).map (fun rest => (b :: t).dropLast :: rest)
      else .error (.msg "str::from_utf8 failed while parsing a list.") := by
  cases b with
  | zero => exact absurd rfl hb
  | succ n => cases t <;> rfl

/-- Same unfolding for the main.rs strings-list loop. -/
theorem parse_strings_list_loop_cons_ne {b : Nat} (t : List Nat)
    (fs : List (List Nat)) (hb : b ≠ 0) :
    parse_strings_list_loop ((b :: t) :: fs) =
      if isValidUtf8 (b :: t).dropLast then
        (parse_strings_list_loop fs).map (fun rest => (b :: t).dropLast :: rest)
      else .error .utf8Error := by
  cases b with
  | zero => exact absurd rfl hb
  | succ n => cases t <;> rfl

/-- Same unfolding for the main.rs names-list loop. -/
theorem parse_names_list_loop_cons_ne {b : Nat} (t : List Nat)
    (fs : List (List Nat)) (hb : b ≠ 0) :
    parse_names_list_loop ((b :: t) :: fs) =
      if ¬(1 ≤ b ∧ b ≤ 31) then .error (.msg "Name source parsing failed.")
      else
        match (b :: t).dropLast with
        | [] => .error (.msg "Names list parsing failed.")
        | _ :: name_bytes =>
          if isValidUtf8 name_bytes then
            (parse_names_list_loop fs).map (fun rest => ⟨name_bytes, b⟩ :: rest)
          else .error .utf8Error := by
  cases b with
  | zero => exact absurd rfl hb
  | succ n => cases t <;> rfl

/-! ### Concrete buffers used as witnesses and counterexamples -/

/-- Big-endian 4-byte encoding of a 32-bit value. -/
def be32 (n : Nat) : List Nat :=
  [n / 16777216 % 256, n / 65536 % 256, n / 256 % 256, n % 256]

/-- The spec's scenario buffer: magic at 0, version 1 at 4, Macros pointer 20
at offset 8, trailer pointer 172 at offset 12, page count 0 at 16, then a
Macros collection at 20 declaring 36 tables whose offsets all point at 168,
where a table with count 0 sits, and the trailer magic at 172. -/
def scenarioBuf : List Nat :=
  be32 DB_MAGIC_NUMBER ++ be32 1 ++ be32 20 ++ be32 172 ++ be32 0 ++
  be32 36 ++ (List.replicate 36 (be32 168)).flatten ++ be32 0 ++
  be32 DB_MAGIC_NUMBER

/-- Like `scenarioBuf`, but the Macros pointer at offset 8 points at 168,
where the count reads 0, so decoding a Macros collection there fails. -/
def macrosBadBuf : List Nat :=
  be32 DB_MAGIC_NUMBER ++ be32 1 ++ be32 168 ++ be32 172 ++ be32 0 ++
  be32 36 ++ (List.replicate 36 (be32 168)).flatten ++ be32 0 ++
  be32 DB_MAGIC_NUMBER

/-- A database with one page: names list at 40 (name "ls", source 4),
sections at 45 ("1"), architectures at 48 (present, empty list),
description "lst" at 49, format tag 1 at 53 and files list at 54 ("f"),
trailer magic at 57. -/
def dbBuf1 : List Nat :=
  be32 DB_MAGIC_NUMBER ++ be32 1 ++ be32 0 ++ be32 57 ++ be32 1 ++
  be32 40 ++ be32 45 ++ be32 48 ++ be32 49 ++ be32 53 ++
  [4, 108, 115, 0, 0] ++
  [49, 0, 0] ++
  [0] ++
  [108, 115, 116, 0] ++
  [1, 102, 0, 0] ++
  be32 DB_MAGIC_NUMBER

/-- The page encoded in `dbBuf1`. -/
def page1 : Page :=
  { names := [⟨[108, 115], 4⟩], sects := [[49]], archs := some [],
    desc := [108, 115, 116], files := [[102]], format := .MdocMan }

/-- Copy of `dbBuf1` with the format tag byte at index 53 set to 3. -/
def badTagBuf : List Nat :=
  be32 DB_MAGIC_NUMBER ++ be32 1 ++ be32 0 ++ be32 57 ++ be32 1 ++
  be32 40 ++ be32 45 ++ be32 48 ++ be32 49 ++ be32 53 ++
  [4, 108, 115, 0, 0] ++
  [49, 0, 0] ++
  [0] ++
  [108, 115, 116, 0] ++
  [3, 102, 0, 0] ++
  be32 DB_MAGIC_NUMBER

/-- A Macros collection declaring 35 tables, all of whose offsets point at
144, where a table with count 0 sits: every declared table decodes. -/
def tables35Buf : List Nat :=
  be32 35 ++ (List.replicate 35 (be32 144)).flatten ++ be32 0

/-- A pages-list walk input: entry 0 at offset 0 points at the page record
at 12, whose first field points at the names list at 16 (name "ls",
source 4); entry 1 at offset 4 is the 0 terminator. -/
def walkBuf : List Nat :=
  be32 12 ++ be32 0 ++ be32 0 ++ be32 16 ++ [4, 108, 115, 0, 0]

/-! ### C3 -/

/-- The four bytes read by an in-bounds `parse_num`, as a slice. -/
theorem take_four_getD (l : List Nat) (s : Nat) (h : s + 3 < l.length) :
    (l.drop s).take 4 =
      [l.getD s 0, l.getD (s + 1) 0, l.getD (s + 2) 0, l.getD (s + 3) 0] := by
  rw [List.drop_getD_cons (show s < l.length by omega)]
  rw [List.drop_getD_cons (show s + 1 < l.length by omega)]
  rw [List.drop_getD_cons (show s + 1 + 1 < l.length by omega)]
  rw [List.drop_getD_cons (show s + 1 + 1 + 1 < l.length by omega)]
  rfl

/-- C3, counterexample: on a 3-byte buffer the big-endian u32 reader panics
(`assert!` failure); it does not return a typed error value. -/
theorem parse_num_oob_panic_cex : parse_num [0, 0, 0] 0 = .panic := by decide

/-- C3, amended: `parse_num` never reads past the buffer end, but an
out-of-bounds read (`start + 3 ≥ buffer length`) is an assertion panic, not
a returned typed failure; in bounds, it returns the big-endian value of the
4-byte slice at `start`. -/
theorem parse_num_bounds_assert (bytes : List Nat) (start : Nat) :
    (start + 3 < bytes.length →
      parse_num bytes start =
        .ok (((bytes.drop start).take 4).foldl (fun acc b => acc * 256 + b) 0)) ∧
    (bytes.length ≤ start + 3 → parse_num bytes start = .panic) := by
  constructor
  · intro h
    unfold parse_num
    rw [if_pos h, take_four_getD bytes start h]
    simp only [List.foldl]
    exact congrArg PResult.ok (by ring)
  · intro h
    unfold parse_num
    rw [if_neg (by omega)]

/-- C3, witness. -/
theorem parse_num_bounds_assert_witness :
    parse_num [1, 2, 3, 4] 0 = .ok 16909060 ∧ parse_num [0, 0, 0] 1 = .panic := by
  constructor
  · have h := (parse_num_bounds_assert [1, 2, 3, 4] 0).1 (by decide)
    simpa using h
  · exact (parse_num_bounds_assert [0, 0, 0] 1).2 (by decide)

/-! ### C4 -/

/-- The inner name loop of `Database::search` reports exactly `List.any`. -/
theorem searchNames_eq_any (names : List Name) (q : List Nat) :
    searchNames names q = names.any (fun n => eq_ignore_ascii_case n.str q) := by
  induction names with
  | nil => rfl
  | cons n rest ih =>
    show (if eq_ignore_ascii_case n.str q = true then true
          else searchNames rest q) = _
    by_cases hc : eq_ignore_ascii_case n.str q = true
    · rw [if_pos hc, List.any_cons, hc, Bool.true_or]
    · rw [if_neg hc, ih, List.any_cons,
        show eq_ignore_ascii_case n.str q = false by simpa using hc,
        Bool.false_or]

/-- C4: `Database::search` reports the first page, in table order, one of
whose names equals the query up to ASCII case, and reports the explicit
no-result outcome (`none`) exactly when no page's name matches. -/
theorem database_search_first_match (db : Database) (query : List Nat) :
    db.search query =
      db.pages.find?
        (fun p => p.names.any (fun n => eq_ignore_ascii_case n.str query)) ∧
    (db.search query = none ↔
      ∀ p ∈ db.pages, ∀ n ∈ p.names,
        eq_ignore_ascii_case n.str query = false) := by
  have hmain : ∀ ps : List Page, searchPages ps query =
      ps.find? (fun p => p.names.any (fun n => eq_ignore_ascii_case n.str query)) := by
    intro ps
    induction ps with
    | nil => rfl
    | cons p rest ih =>
      show (if searchNames p.names query = true then some p
            else searchPages rest query) = _
      rw [searchNames_eq_any]
      by_cases hp : p.names.any (fun n => eq_ignore_ascii_case n.str query) = true
      · rw [if_pos hp,
          List.find?_cons_of_pos (p := fun p =>
            p.names.any (fun n => eq_ignore_ascii_case n.str query)) rest hp]
      · rw [if_neg hp, ih,
          List.find?_cons_of_neg (p := fun p =>
            p.names.any (fun n => eq_ignore_ascii_case n.str query)) rest hp]
  refine ⟨hmain db.pages, ?_⟩
  rw [show db.search query = _ from hmain db.pages, List.find?_eq_none]
  constructor
  · intro h p hp n hn
    have hanyf := h p hp
    simp only [List.any_eq_true, not_exists, not_and] at hanyf
    simpa using hanyf n hn
  · intro h p hp
    simp only [List.any_eq_true, not_exists, not_and]
    intro n hn
    simpa using h p hp n hn

/-! ### C9 -/

/-- C9: an in-bounds offset whose byte is NUL decodes, in both string-list
decoders, to the empty list with no error: the lone NUL is the terminator
and is excluded from the output. -/
theorem string_list_leading_nul_empty (bytes : List Nat) (idx : Nat)
    (h : idx < bytes.length) (h0 : bytes.getD idx 0 = 0) :
    parse_strings_list bytes idx = .ok [] ∧ parse_list bytes idx = .ok [] := by
  have hd : bytes.drop idx = 0 :: bytes.drop (idx + 1) := by
    rw [List.drop_getD_cons h, h0]
  have hsplit : splitInclusiveNul (bytes.drop idx) =
      [0] :: splitInclusiveNul (bytes.drop (idx + 1)) := by
    rw [hd]; simp [splitInclusiveNul]
  constructor
  · unfold parse_strings_list
    rw [if_pos h.le, hsplit]
    rfl
  · unfold parse_list
    rw [if_pos h.le, hsplit]
    rfl

/-- C9, witness. -/
theorem string_list_leading_nul_empty_witness :
    parse_strings_list [0] 0 = .ok [] ∧ parse_list [0] 0 = .ok [] :=
  string_list_leading_nul_empty [0] 0 (by decide) (by decide)

/-! ### C10 -/

/-- C10: when the suffix from an in-bounds offset to the end of the buffer
contains no NUL (and its UTF-8 check passes), both string-list decoders
return successfully — no missing-terminator error — with the unterminated
tail, minus its final byte, as the list's single (hence final) item. -/
theorem string_list_missing_terminator_truncates (bytes : List Nat)
    (idx : Nat) (h : idx < bytes.length)
    (hz : ∀ b ∈ bytes.drop idx, b ≠ 0)
    (hu : isValidUtf8 ((bytes.drop idx).dropLast) = true) :
    parse_list bytes idx = .ok [(bytes.drop idx).dropLast] ∧
    parse_strings_list bytes idx = .ok [(bytes.drop idx).dropLast] := by
  have hne : bytes.drop idx ≠ [] := by
    intro he
    have hlen : bytes.length - idx = 0 := by
      simpa using congrArg List.length he
    omega
  have hsplit := splitInclusiveNul_no_zero hne hz
  cases hd : bytes.drop idx with
  | nil => exact absurd hd hne
  | cons b t =>
    have hb : b ≠ 0 := by
      have := hz b (by rw [hd]; simp)
      exact this
    rw [hd] at hsplit hu
    constructor
    · unfold parse_list
      rw [if_pos h.le, hd, hsplit, parse_list_loop_cons_ne t [] hb, if_pos hu]
      rfl
    · unfold parse_strings_list
      rw [if_pos h.le, hd, hsplit, parse_strings_list_loop_cons_ne t [] hb,
        if_pos hu]
      rfl

/-- C10, witness. -/
theorem string_list_missing_terminator_truncates_witness :
    parse_list [65, 66] 0 = .ok [[65]] ∧
    parse_strings_list [65, 66] 0 = .ok [[65]] := by
  have h := string_list_missing_terminator_truncates [65, 66] 0 (by decide)
    (by decide) (by decide)
  simpa using h

/-! ### C7 -/

/-- Names-list loop, fragment with an out-of-range leading source byte. -/
theorem parse_names_list_loop_bad_source {b : Nat} {t : List Nat}
    {fs : List (List Nat)} (hb : b ≠ 0) (hbad : ¬(1 ≤ b ∧ b ≤ 31)) :
    parse_names_list_loop ((b :: t) :: fs) =
      .error (.msg "Name source parsing failed.") := by
  rw [parse_names_list_loop_cons_ne t fs hb, if_pos hbad]

/-- Names-list loop, one-byte unterminated fragment: after dropping the
(absent) trailing NUL nothing is left, so `split_first` fails. -/
theorem parse_names_list_loop_single {b : Nat} {fs : List (List Nat)}
    (hb : b ≠ 0) (hg : 1 ≤ b ∧ b ≤ 31) :
    parse_names_list_loop ([b] :: fs) =
      .error (.msg "Names list parsing failed.") := by
  rw [parse_names_list_loop_cons_ne [] fs hb, if_neg (not_not_intro hg)]
  rfl

/-- Names-list loop, fragment of length at least two with an in-range
leading source byte. -/
theorem parse_names_list_loop_proper {b c : Nat} {t2 : List Nat}
    {fs : List (List Nat)} (hb : b ≠ 0) (hg : 1 ≤ b ∧ b ≤ 31) :
    parse_names_list_loop ((b :: c :: t2) :: fs) =
      if isValidUtf8 ((c :: t2).dropLast) then
        (parse_names_list_loop fs).map
          (fun rest => ⟨(c :: t2).dropLast, b⟩ :: rest)
      else .error .utf8Error := by
  rw [parse_names_list_loop_cons_ne (c :: t2) fs hb, if_neg (not_not_intro hg)]
  rfl

/-- Per-entry source preservation at the fragment level: when the names-list
loop succeeds, the j-th decoded name comes from the j-th fragment, whose
leading byte is in 1..=31 and is stored exactly as that name's source. -/
theorem parse_names_list_loop_entries :
    ∀ (frags : List (List Nat)) (ns : List Name),
      parse_names_list_loop frags = .ok ns →
      ∀ (j : Nat) (n : Name), ns.get? j = some n →
        ∃ b t, frags.get? j = some (b :: t) ∧ 1 ≤ b ∧ b ≤ 31 ∧
          n.source = b := by
  intro frags
  induction frags with
  | nil =>
    intro ns h j n hget
    have h2 : PResult.ok ([] : List Name) = .ok ns := h
    injection h2 with h3
    rw [← h3] at hget
    cases hget
  | cons f fs ih =>
    intro ns h j n hget
    rcases f with _ | ⟨b, t⟩
    · exact (PResult.noConfusion (show PResult.error (α := List Name)
        (PErr.msg "Parsed an unexpected empty string.") = .ok ns from h))
    · by_cases hb0 : b = 0
      · subst hb0
        cases t with
        | nil =>
          have h2 : PResult.ok ([] : List Name) = .ok ns := h
          injection h2 with h3
          rw [← h3] at hget
          cases hget
        | cons c t2 =>
          exact (PResult.noConfusion (show PResult.error (α := List Name)
            (PErr.msg "Name source parsing failed.") = .ok ns from h))
      · by_cases hg : 1 ≤ b ∧ b ≤ 31
        · cases t with
          | nil =>
            rw [parse_names_list_loop_single hb0 hg] at h
            exact (PResult.noConfusion h)
          | cons c t2 =>
            rw [parse_names_list_loop_proper hb0 hg] at h
            by_cases hu : isValidUtf8 ((c :: t2).dropLast) = true
            · rw [if_pos hu, PResult.map_eq_ok] at h
              obtain ⟨ns2, hns2, heq⟩ := h
              rw [← heq] at hget
              cases j with
              | zero =>
                rw [List.get?_cons_zero] at hget
                injection hget with hn2
                exact ⟨b, c :: t2, rfl, hg.1, hg.2, by rw [← hn2]⟩
              | succ j =>
                rw [List.get?_cons_succ] at hget
                obtain ⟨b2, t3, hg2, hb2a, hb2b, hsrc⟩ := ih ns2 hns2 j n hget
                refine ⟨b2, t3, ?_, hb2a, hb2b, hsrc⟩
                rw [List.get?_cons_succ]
                exact hg2
            · rw [if_neg hu] at h
              exact (PResult.noConfusion h)
        · rw [parse_names_list_loop_bad_source hb0 hg] at h
          exact (PResult.noConfusion h)

/-- At the fragment level: if the first `k` fragments are accepted by the
names-list loop (length ≥ 2, in-range leading source byte, valid UTF-8
name bytes) and fragment `k` has a leading byte ≥ 32, the whole decode
fails with the source-byte error — at every position, not just the first. -/
theorem parse_names_list_loop_mid_bad :
    ∀ (k : Nat) (frags : List (List Nat)),
      (∀ j, j < k → ∃ b c t, frags.get? j = some (b :: c :: t) ∧
        1 ≤ b ∧ b ≤ 31 ∧ isValidUtf8 ((c :: t).dropLast) = true) →
      (∃ f, frags.get? k = some f ∧ 32 ≤ f.headD 0) →
      parse_names_list_loop frags =
        .error (.msg "Name source parsing failed.") := by
  intro k
  induction k with
  | zero =>
    intro frags _ hbad
    obtain ⟨f, hget, h32⟩ := hbad
    cases frags with
    | nil => cases hget
    | cons f0 fs =>
      rw [List.get?_cons_zero] at hget
      injection hget with hf
      subst hf
      cases f0 with
      | nil => simp at h32
      | cons b t =>
        have hb32 : 32 ≤ b := by simpa using h32
        exact parse_names_list_loop_bad_source (by omega) (by omega)
  | succ k ih =>
    intro frags hacc hbad
    obtain ⟨b, c, t, hget0, hb1, hb31, hu⟩ := hacc 0 (Nat.succ_pos k)
    obtain ⟨f, hgetk, h32⟩ := hbad
    cases frags with
    | nil => cases hget0
    | cons f0 fs =>
      rw [List.get?_cons_zero] at hget0
      injection hget0 with hf
      subst hf
      rw [List.get?_cons_succ] at hgetk
      have hrec : parse_names_list_loop fs =
          .error (.msg "Name source parsing failed.") := by
        apply ih
        · intro j hj
          have hj2 := hacc (j + 1) (by omega)
          simpa only [List.get?_cons_succ] using hj2
        · exact ⟨f, hgetk, h32⟩
      rw [parse_names_list_loop_proper (by omega) ⟨hb1, hb31⟩, if_pos hu, hrec]
      rfl

/-- A fragment produced by `split_inclusive(|b| *b == 0)` whose leading byte
is 0 is necessarily the lone-NUL fragment `[0]`: a leading source byte 0 can
only occur in the terminator. -/
theorem splitInclusiveNul_zero_head :
    ∀ (l : List Nat) (f : List Nat), f ∈ splitInclusiveNul l →
      f.headD 1 = 0 → f = [0] := by
  intro l
  induction l with
  | nil => intro f hf _; cases hf
  | cons b t ih =>
    intro f hf h0
    by_cases hb : b = 0
    · subst hb
      rw [show splitInclusiveNul (0 :: t) = [0] :: splitInclusiveNul t from by
        simp [splitInclusiveNul]] at hf
      rcases List.mem_cons.mp hf with h1 | h2
      · exact h1
      · exact ih f h2 h0
    · rw [splitInclusiveNul_cons_ne t hb] at hf
      rcases hsp : splitInclusiveNul t with _ | ⟨g, gs⟩
      · rw [hsp] at hf
        have hfb : f = [b] := by simpa using hf
        rw [hfb] at h0
        exact absurd (by simpa using h0) hb
      · rw [hsp] at hf
        rcases List.mem_cons.mp hf with h1 | h2
        · rw [h1] at h0
          exact absurd (by simpa using h0) hb
        · exact ih f (by rw [hsp]; exact List.mem_cons_of_mem g h2) h0

/-- C7: names-list entries are the NUL-inclusive fragments of the buffer
suffix at the list's start offset.  First, a fragment whose leading byte is
0 is always the lone-NUL terminator `[0]`, so a 0 source byte in a
non-terminator fragment cannot occur.  Second, whenever the fragments
before position `k` are all accepted by the decoder and fragment `k` has a
leading byte ≥ 32, the whole names-list decode fails with the source-byte
error — at every entry position, not only the first.  Third, when the
decode succeeds, then for every `j` the j-th decoded name comes from the
j-th fragment, whose leading byte lies in 1..=31 and is stored exactly as
that name's source field. -/
theorem name_source_byte_rules :
    (∀ (l : List Nat) (f : List Nat), f ∈ splitInclusiveNul l →
      f.headD 1 = 0 → f = [0]) ∧
    (∀ (bytes : List Nat) (start k : Nat), start ≤ bytes.length →
      (∀ j, j < k → ∃ b c t,
        (splitInclusiveNul (bytes.drop start)).get? j = some (b :: c :: t) ∧
        1 ≤ b ∧ b ≤ 31 ∧ isValidUtf8 ((c :: t).dropLast) = true) →
      (∃ f, (splitInclusiveNul (bytes.drop start)).get? k = some f ∧
        32 ≤ f.headD 0) →
      Name.parse_names_list bytes start =
        .error (.msg "Name source parsing failed.")) ∧
    (∀ (bytes : List Nat) (start : Nat) (ns : List Name),
      Name.parse_names_list bytes start = .ok ns →
      ∀ (j : Nat) (n : Name), ns.get? j = some n →
        ∃ b t,
          (splitInclusiveNul (bytes.drop start)).get? j = some (b :: t) ∧
          1 ≤ b ∧ b ≤ 31 ∧ n.source = b) := by
  refine ⟨splitInclusiveNul_zero_head, ?_, ?_⟩
  · intro bytes start k hstart hacc hbad
    unfold Name.parse_names_list
    rw [if_pos hstart]
    exact parse_names_list_loop_mid_bad k _ hacc hbad
  · intro bytes start ns h j n hget
    unfold Name.parse_names_list at h
    by_cases hle : start ≤ bytes.length
    · rw [if_pos hle] at h
      exact parse_names_list_loop_entries _ ns h j n hget
    · rw [if_neg hle] at h
      exact (PResult.noConfusion h)

/-- C7, witness: the zero-head part at the terminator of `[0, 65, 0]`; the
mid-list failure at entry 1 of `[4, 108, 115, 0, 65, 0]` (entry 0 is the
accepted name "ls" with source 4, entry 1 leads with 65 ≥ 32); and exact
per-entry source preservation at entry 1 of `[4, 108, 115, 0, 7, 99, 0, 0]`
(two names, the second with source byte 7). -/
theorem name_source_byte_rules_witness :
    ([0] : List Nat) = [0] ∧
    Name.parse_names_list [4, 108, 115, 0, 65, 0] 0 =
      .error (.msg "Name source parsing failed.") ∧
    (∃ b t, (splitInclusiveNul ([4, 108, 115, 0, 7, 99, 0, 0].drop 0)).get? 1 =
        some (b :: t) ∧ 1 ≤ b ∧ b ≤ 31 ∧ (Name.mk [99] 7).source = b) := by
  refine ⟨?_, ?_, ?_⟩
  · exact name_source_byte_rules.1 [0, 65, 0] [0] (by decide) (by decide)
  · exact name_source_byte_rules.2.1 [4, 108, 115, 0, 65, 0] 0 1 (by decide)
      (fun j hj => by
        have hj0 : j = 0 := by omega
        subst hj0
        exact ⟨4, 108, [115, 0], by decide, by decide, by decide, by decide⟩)
      ⟨[65, 0], by decide, by decide⟩
  · exact name_source_byte_rules.2.2 [4, 108, 115, 0, 7, 99, 0, 0] 0
      [⟨[108, 115], 4⟩, ⟨[99], 7⟩] (by decide) 1 ⟨[99], 7⟩ (by decide)

/-! ### C8 -/

/-- C8: for every successfully decoded Page, the architectures field is
absent exactly when the record's third offset (`offset[2]`, read at
`start + 8`) is 0; when that offset is non-zero the field is present and is
the string list decoded at that offset, even if that list is empty. -/
theorem page_archs_absent_iff_offset_zero (bytes : List Nat) (start : Nat)
    (page : Page) (h : Page.parse bytes start = .ok page) :
    ∃ a, parse_num bytes (start + 8) = .ok a ∧
      (page.archs = none ↔ a = 0) ∧
      (a ≠ 0 → ∃ l, parse_strings_list bytes a = .ok l ∧
        page.archs = some l) := by
  unfold Page.parse at h
  by_cases hlen : start + 19 < bytes.length
  case neg =>
    rw [if_neg hlen] at h
    exact (PResult.noConfusion h)
  rw [if_pos hlen] at h
  simp only [PResult.bind_eq_ok, PResult.map_eq_ok] at h
  obtain ⟨ns, hns, h⟩ := h
  obtain ⟨ss, hss, h⟩ := h
  obtain ⟨as_, has, h⟩ := h
  obtain ⟨ds, hds, h⟩ := h
  obtain ⟨fs, hfs, h⟩ := h
  obtain ⟨names, hnames, h⟩ := h
  obtain ⟨sects, hsects, h⟩ := h
  obtain ⟨archs, harchs, h⟩ := h
  obtain ⟨desc, hdesc, h⟩ := h
  obtain ⟨files, hfiles, h⟩ := h
  obtain ⟨format, hformat, hpage⟩ := h
  refine ⟨as_, has, ?_, ?_⟩
  · rw [← hpage]
    by_cases ha0 : as_ = 0
    · rw [if_neg (by simpa using ha0)] at harchs
      have h2 : PResult.ok (none : Option (List (List Nat))) = .ok archs :=
        harchs
      injection h2 with h3
      simp [← h3, ha0]
    · rw [if_pos ha0, PResult.map_eq_ok] at harchs
      obtain ⟨l, hl, hla⟩ := harchs
      simp [← hla, ha0]
  · intro ha0
    rw [if_pos ha0, PResult.map_eq_ok] at harchs
    obtain ⟨l, hl, hla⟩ := harchs
    exact ⟨l, hl, by rw [← hpage]; simp [← hla]⟩

/-- C8, witness: the page in `dbBuf1` has a non-zero architectures offset
(48) pointing at an empty — yet present — list. -/
theorem page_archs_absent_iff_offset_zero_witness :
    ∃ a, parse_num dbBuf1 (20 + 8) = .ok a ∧
      (page1.archs = none ↔ a = 0) ∧
      (a ≠ 0 → ∃ l, parse_strings_list dbBuf1 a = .ok l ∧
        page1.archs = some l) :=
  page_archs_absent_iff_offset_zero dbBuf1 20 page1 (by decide)

/-! ### C2 -/

/-- A successful `PageFormat::from` forces the tag byte to be 1 or 2, with
the corresponding variant. -/
theorem PageFormat.fromByte_ok {b : Nat} {f : PageFormat}
    (h : PageFormat.fromByte b = .ok f) :
    (b = 1 ∧ f = .MdocMan) ∨ (b = 2 ∧ f = .Preformatted) := by
  match b with
  | 0 => exact (PResult.noConfusion h)
  | 1 => exact Or.inl ⟨rfl, (PResult.ok.inj h).symm⟩
  | 2 => exact Or.inr ⟨rfl, (PResult.ok.inj h).symm⟩
  | n + 3 => exact (PResult.noConfusion h)

/-- C2, counterexample: in `badTagBuf` the page record's files offset is 53
and the tag byte there is 3; `Page::parse` panics (`unreachable!`) instead
of returning a typed failure — no `UnknownFormatTag` error exists in the
code. -/
theorem page_parse_unknown_tag_panics_cex :
    parse_num badTagBuf 36 = .ok 53 ∧ badTagBuf.getD 53 0 = 3 ∧
    Page.parse badTagBuf 20 = .panic := by
  refine ⟨by decide, by decide, by decide⟩

/-- C2, amended: tag byte 1 yields format MdocMan and tag 2 yields
Preformatted; any other tag byte makes `PageFormat::from` hit
`unreachable!()`, a panic rather than a typed failure, so a Page can only
decode successfully when its tag byte is 1 or 2. -/
theorem page_format_tag_mapping :
    (∀ b : Nat, b ≠ 1 → b ≠ 2 → PageFormat.fromByte b = .panic) ∧
    (PageFormat.fromByte 1 = .ok .MdocMan ∧
     PageFormat.fromByte 2 = .ok .Preformatted) ∧
    (∀ (bytes : List Nat) (start : Nat) (page : Page),
      Page.parse bytes start = .ok page →
      ∃ fs, parse_num bytes (start + 16) = .ok fs ∧
        ((bytes.getD fs 0 = 1 ∧ page.format = .MdocMan) ∨
         (bytes.getD fs 0 = 2 ∧ page.format = .Preformatted))) := by
  refine ⟨?_, ⟨rfl, rfl⟩, ?_⟩
  · intro b h1 h2
    match b with
    | 0 => rfl
    | 1 => exact absurd rfl h1
    | 2 => exact absurd rfl h2
    | n + 3 => rfl
  · intro bytes start page h
    unfold Page.parse at h
    by_cases hlen : start + 19 < bytes.length
    case neg =>
      rw [if_neg hlen] at h
      exact (PResult.noConfusion h)
    rw [if_pos hlen] at h
    simp only [PResult.bind_eq_ok, PResult.map_eq_ok] at h
    obtain ⟨ns, hns, h⟩ := h
    obtain ⟨ss, hss, h⟩ := h
    obtain ⟨as_, has, h⟩ := h
    obtain ⟨ds, hds, h⟩ := h
    obtain ⟨fs, hfs, h⟩ := h
    obtain ⟨names, hnames, h⟩ := h
    obtain ⟨sects, hsects, h⟩ := h
    obtain ⟨archs, harchs, h⟩ := h
    obtain ⟨desc, hdesc, h⟩ := h
    obtain ⟨files, hfiles, h⟩ := h
    obtain ⟨format, hformat, hpage⟩ := h
    refine ⟨fs, hfs, ?_⟩
    by_cases hin : fs < bytes.length
    · rw [if_pos hin] at hformat
      have hcases := PageFormat.fromByte_ok hformat
      rw [← hpage]
      rcases hcases with ⟨hb, hf⟩ | ⟨hb, hf⟩
      · exact Or.inl ⟨hb, by simpa using hf⟩
      · exact Or.inr ⟨hb, by simpa using hf⟩
    · rw [if_neg hin] at hformat
      exact (PResult.noConfusion hformat)

/-- C2, witness. -/
theorem page_format_tag_mapping_witness :
    PageFormat.fromByte 3 = .panic ∧
    (∃ fs, parse_num dbBuf1 (20 + 16) = .ok fs ∧
      ((dbBuf1.getD fs 0 = 1 ∧ page1.format = .MdocMan) ∨
       (dbBuf1.getD fs 0 = 2 ∧ page1.format = .Preformatted))) :=
  ⟨page_format_tag_mapping.1 3 (by decide) (by decide),
   page_format_tag_mapping.2.2 dbBuf1 20 page1 (by decide)⟩

/-! ### C5 -/

/-- C5: a Macros collection decodes successfully only with declared count
exactly 36 (and then exactly 36 decoded tables); when the declared count is
any other value and all declared tables decode, the result is precisely the
count-mismatch error. -/
theorem macros_parse_requires_36 :
    (∀ (bytes : List Nat) (start : Nat) (m : macros.Macros),
      macros.Macros.parse bytes start = .ok m →
      m.count = 36 ∧ m.tables.length = 36) ∧
    (∀ (bytes : List Nat) (start count : Nat) (tables : List macros.Table),
      parse_num bytes start = .ok count → count ≠ 36 →
      macros.tablesLoop bytes (start + 4) (List.range count) = .ok tables →
      macros.Macros.parse bytes start =
        .error (.msg "Macros parsing failed.")) := by
  constructor
  · intro bytes start m h
    unfold macros.Macros.parse at h
    simp only [PResult.bind_eq_ok] at h
    obtain ⟨count, hcount, h⟩ := h
    obtain ⟨tables, htables, hif⟩ := h
    by_cases hc : count ≠ 36 ∨ tables.length ≠ 36
    · rw [if_pos hc] at hif
      exact (PResult.noConfusion hif)
    · rw [if_neg hc] at hif
      push_neg at hc
      injection hif with h2
      rw [← h2]
      exact ⟨hc.1, hc.2⟩
  · intro bytes start count tables hcount hne htables
    unfold macros.Macros.parse
    rw [hcount]
    show (macros.tablesLoop bytes (start + 4) (List.range count)).bind _ = _
    rw [htables]
    show (if count ≠ 36 ∨ tables.length ≠ 36 then _ else _) = _
    rw [if_pos (Or.inl hne)]

set_option maxRecDepth 100000 in
/-- C5, witness: the scenario collection (count 36) decodes with 36 tables;
the 35-table collection, all of whose tables decode, fails with the
count-mismatch error. -/
theorem macros_parse_requires_36_witness :
    ((macros.Macros.mk 36 (List.replicate 36 ⟨0, []⟩)).count = 36 ∧
      (macros.Macros.mk 36 (List.replicate 36 ⟨0, []⟩)).tables.length = 36) ∧
    macros.Macros.parse tables35Buf 0 =
      .error (.msg "Macros parsing failed.") :=
  ⟨macros_parse_requires_36.1 scenarioBuf 20
      (macros.Macros.mk 36 (List.replicate 36 ⟨0, []⟩)) (by decide),
   macros_parse_requires_36.2 tables35Buf 0 35 (List.replicate 35 ⟨0, []⟩)
      (by decide) (by decide) (by decide)⟩

/-! ### C6 -/

theorem PResult.bind_assoc {α β γ : Type} (x : PResult α) (f : α → PResult β)
    (g : β → PResult γ) :
    (x.bind f).bind g = x.bind (fun a => (f a).bind g) := by
  cases x <;> rfl

/-- Behaviour of the pages-list walk over the index window `range' p n`:
if every entry from `p` up to (but excluding) `k` reads as a non-zero
offset whose page dereference resolves, and either `k` is past the window
or entry `k` reads 0, the walk succeeds with exactly the groups of entries
`p..k-1`, in order. -/
theorem pagesWalk_spec (bytes : List Nat) (base : Nat) (ent : Nat → Nat)
    (names : Nat → List pages.Name) :
    ∀ (n p k : Nat), p ≤ k → k ≤ p + n →
      (∀ j, p ≤ j → j < k →
        parse_num bytes (base + j * 4) = .ok (ent j) ∧ ent j ≠ 0 ∧
        (parse_num bytes (ent j)).bind (pages.Name.parse_names bytes) =
          .ok (names j)) →
      (k = p + n ∨ parse_num bytes (base + k * 4) = .ok 0) →
      macros.pagesWalk bytes base (List.range' p n) =
        .ok ((List.range' p (k - p)).map names) := by
  intro n
  induction n with
  | zero =>
    intro p k hpk hkn hpre hterm
    have hk : k = p := by omega
    subst hk
    simp [macros.pagesWalk]
  | succ n ih =>
    intro p k hpk hkn hpre hterm
    rw [List.range'_succ]
    by_cases hpk2 : p = k
    · have hz : parse_num bytes (base + p * 4) = .ok 0 := by
        rcases hterm with he | hz
        · exact absurd he (by omega)
        · rw [hpk2]; exact hz
      have hsub : k - p = 0 := by omega
      rw [hsub]
      simp only [macros.pagesWalk, hz]
      rfl
    · have hplt : p < k := by omega
      obtain ⟨h1, h2, h3⟩ := hpre p le_rfl hplt
      simp only [macros.pagesWalk]
      rw [h1]
      show (if ent p = 0 then PResult.ok [] else _) = _
      rw [if_neg h2]
      rw [← PResult.bind_assoc, h3]
      show (macros.pagesWalk bytes base (List.range' (p + 1) n)).map _ = _
      have hterm2 : k = (p + 1) + n ∨ parse_num bytes (base + k * 4) = .ok 0 := by
        rcases hterm with he | hz
        · exact Or.inl (by omega)
        · exact Or.inr hz
      rw [ih (p + 1) k (by omega) (by omega)
        (fun j hj hjk => hpre j (by omega) hjk) hterm2]
      have hsub : k - p = (k - (p + 1)) + 1 := by omega
      rw [hsub, List.range'_succ, List.map_cons]
      rfl

/-- C6: the macro-value pages-list walk reads at most the 21 entries with
indices 0..=20.  If the first zero entry is at index `k ≤ 20` and every
earlier entry is non-zero and dereferences (via the page record's first
field) to a Name group, the walk succeeds with exactly the `k` groups of
the entries before the terminator — the zero entry is excluded.  If all 21
entries are non-zero and dereference, the walk ends at exactly 21 groups
with no error. -/
theorem macro_pages_walk_cap_and_terminator (bytes : List Nat) (base : Nat)
    (ent : Nat → Nat) (names : Nat → List pages.Name) :
    (∀ k, k ≤ 20 →
      (∀ j, j < k →
        parse_num bytes (base + j * 4) = .ok (ent j) ∧ ent j ≠ 0 ∧
        (parse_num bytes (ent j)).bind (pages.Name.parse_names bytes) =
          .ok (names j)) →
      parse_num bytes (base + k * 4) = .ok 0 →
      macros.pagesWalk bytes base (List.range 21) =
        .ok ((List.range k).map names)) ∧
    ((∀ j, j ≤ 20 →
        parse_num bytes (base + j * 4) = .ok (ent j) ∧ ent j ≠ 0 ∧
        (parse_num bytes (ent j)).bind (pages.Name.parse_names bytes) =
          .ok (names j)) →
      macros.pagesWalk bytes base (List.range 21) =
        .ok ((List.range 21).map names)) := by
  constructor
  · intro k hk hpre hz
    have h := pagesWalk_spec bytes base ent names 21 0 k (by omega) (by omega)
      (fun j hj hjk => hpre j hjk) (Or.inr (by simpa using hz))
    simpa [List.range_eq_range'] using h
  · intro hpre
    have h := pagesWalk_spec bytes base ent names 21 0 21 (by omega) (by omega)
      (fun j hj hjk => hpre j (by omega)) (Or.inl rfl)
    simpa [List.range_eq_range'] using h

/-- C6, witness: in `walkBuf`, entry 0 is non-zero and resolves to one name
group and entry 1 is the zero terminator, so the walk yields exactly one
group. -/
theorem macro_pages_walk_cap_and_terminator_witness :
    macros.pagesWalk walkBuf 0 (List.range 21) = .ok [[⟨[108, 115], 4⟩]] := by
  have h := (macro_pages_walk_cap_and_terminator walkBuf 0 (fun _ => 12)
      (fun _ => [⟨[108, 115], 4⟩])).1 1 (by omega)
      (fun j hj => by
        have hj0 : j = 0 := by omega
        subst hj0
        exact ⟨by decide, by decide, by decide⟩)
      (by decide)
  simpa using h

/-! ### C1 -/

set_option maxRecDepth 1000000 in
/-- C1, counterexample: `macrosBadBuf` is a well-formed header/trailer
buffer whose Macros pointer (offset 8) points at 168, where a Macros
collection fails to decode (its count reads 0); yet `Database::parse`
succeeds — it never reads the Macros pointer and never decodes a Macros
collection, so a successful parse cannot contain a decoded Macros value. -/
theorem database_parse_ignores_macros_pointer_cex :
    Database.parse macrosBadBuf = .ok ⟨0, []⟩ ∧
    parse_num macrosBadBuf 8 = .ok 168 ∧
    macros.Macros.parse macrosBadBuf 168 =
      .error (.msg "Macros parsing failed.") := by
  refine ⟨by decide, by decide, by decide⟩

set_option maxRecDepth 1000000 in
/-- C1, amended: `Database::parse` validates header and trailer magic and
the version, then decodes only the Pages table; the returned Database has
no Macros component and the Macros pointer at offset 8 is never read (the
parse result is unchanged when that pointer is redirected).  On the
scenario buffer, parse succeeds with `total_pages = 0`, and the Macros
collection at the pointed-to offset 20 — decoded separately by
`Macros::parse` — does have count 36 with 36 tables. -/
theorem database_parse_no_macros_component :
    Database.parse scenarioBuf = .ok ⟨0, []⟩ ∧
    macros.Macros.parse scenarioBuf 20 =
      .ok ⟨36, List.replicate 36 ⟨0, []⟩⟩ ∧
    Database.parse macrosBadBuf = Database.parse scenarioBuf := by
  refine ⟨by decide, by decide, by decide⟩
